import Mathlib

/-!
# ignition-extract: the extraction run over an explicit filesystem

A shallow embedding of `src/extract/main.go` (`runIgnExtract` and its helpers).
The Go code is effectful; here every effect is explicit:

* the filesystem is a finite table from absolute, cleaned paths to nodes, and the
  `os` calls the program makes (`ReadDir`, `Mkdir`, `MkdirAll`, `Create`) are
  functions on that table (permissions, quotas and I/O errors are outside the model);
* console output and calls to collaborators are appended to a trace of events, in
  program order.  A console event records the call of the `stdout`/`stderr` helper:
  the format string it is given and the operands, before `fmt.Fprintf` renders them;
* `os.Exit` and a Go runtime panic (nil pointer dereference) end the run with an
  explicit exit value;
* the Config Loader (`config.Parse`), `url.Parse`, `HTTPHeaders.Parse` and the Content
  Fetcher (`resource.Fetcher.Fetch`) are not part of the file and are parameters (`Env`).
-/

namespace Extract

/-! ## Paths -/

/-- Byte sequences (file contents, the config blob). -/
abbrev Bytes := List Nat

/-- An absolute, cleaned path: the list of its components below the root `/`. -/
abbrev Path := List String

/-- The textual form of an absolute path, as Go prints it with `%s`. -/
def pathStr (p : Path) : String := "/" ++ String.intercalate "/" p

/-- Splitting a slash-separated string into its segments (empty segments are kept). -/
def splitAux : List Char → List Char → List String
  | [], cur => [String.mk cur.reverse]
  | c :: cs, cur =>
    if c = '/' then String.mk cur.reverse :: splitAux cs [] else splitAux cs (c :: cur)

/-- The segments of a slash-separated path string. -/
def splitPath (s : String) : List String := splitAux s.data []

/-- One step of `filepath.Clean` on a rooted path: empty and `.` segments vanish, `..`
removes the last component (and is dropped at the root), any other segment is appended. -/
def cleanStep (acc : Path) (seg : String) : Path :=
  if seg = "" ∨ seg = "." then acc
  else if seg = ".." then acc.dropLast
  else acc ++ [seg]

/-- `filepath.Join(abs, p)` for a cleaned absolute `abs`: the cleaned concatenation. -/
def join (abs : Path) (p : String) : Path := (splitPath p).foldl cleanStep abs

/-- `filepath.Dir` of a cleaned absolute path: the parent (the root is its own parent). -/
def dirOf (p : Path) : Path := p.dropLast

/-! ## The filesystem -/

/-- A filesystem node: a directory, or a regular file with its bytes. -/
inductive Node
  | dir
  | file (content : Bytes)
  deriving DecidableEq, Repr

/-- The error numbers the modelled system calls can return. -/
inductive Errno
  | ENOENT
  | ENOTDIR
  | EEXIST
  | EISDIR
  deriving DecidableEq, Repr

/-- The message of an error number. -/
def Errno.text : Errno → String
  | .ENOENT => "no such file or directory"
  | .ENOTDIR => "not a directory"
  | .EEXIST => "file exists"
  | .EISDIR => "is a directory"

/-- Go's `*fs.PathError`. -/
structure PathError where
  Op : String
  Path : Path
  Err : Errno
  deriving DecidableEq, Repr

/-- The text of a path error: `op path: message`. -/
def PathError.Error (e : PathError) : String :=
  e.Op ++ " " ++ pathStr e.Path ++ ": " ++ e.Err.text

/-- `os.IsNotExist`. -/
def IsNotExist (e : PathError) : Bool := decide (e.Err = .ENOENT)

deriving instance DecidableEq for Except

/-- Association-list lookup, first match wins. -/
def lookupIn : List (Path × Node) → Path → Option Node
  | [], _ => none
  | (q, n) :: rest, p => if q = p then some n else lookupIn rest p

/-- A filesystem: the table of every node other than the root directory. -/
structure FS where
  nodes : List (Path × Node)
  deriving DecidableEq, Repr

/-- The node at a path, if any; the root always is a directory. -/
def FS.lookup (fs : FS) (p : Path) : Option Node :=
  match p with
  | [] => some .dir
  | _ :: _ => lookupIn fs.nodes p

/-- Bind a path to a node, replacing what was there. -/
def FS.set (fs : FS) (p : Path) (n : Node) : FS :=
  ⟨(p, n) :: fs.nodes.filter (fun e => !decide (e.1 = p))⟩

/-- Path resolution from `cur` through the components `rest`: a missing component gives
`ENOENT`, a regular file in the way gives `ENOTDIR`. -/
def walk (fs : FS) : Path → List String → Except Errno Node
  | cur, [] =>
    match fs.lookup cur with
    | none => .error .ENOENT
    | some n => .ok n
  | cur, c :: cs =>
    match fs.lookup cur with
    | none => .error .ENOENT
    | some (.file _) => .error .ENOTDIR
    | some .dir => walk fs (cur ++ [c]) cs

/-- `os.Stat` of an absolute path. -/
def FS.stat (fs : FS) (p : Path) : Except Errno Node := walk fs [] p

/-- The names of the entries directly inside `p`. -/
def FS.children (fs : FS) (p : Path) : List String :=
  fs.nodes.filterMap (fun e => if e.1 ≠ [] ∧ e.1.dropLast = p then e.1.getLast? else none)

/-- `os.ReadDir`: the entries of a directory. -/
def ReadDir (fs : FS) (p : Path) : Except PathError (List String) :=
  match fs.stat p with
  | .error e => .error ⟨"open", p, e⟩
  | .ok (.file _) => .error ⟨"readdirent", p, .ENOTDIR⟩
  | .ok .dir => .ok (fs.children p)

/-- `os.Mkdir`: create one directory; its parent must be a directory and the path free. -/
def Mkdir (fs : FS) (p : Path) : Except PathError FS :=
  match p with
  | [] => .error ⟨"mkdir", p, .EEXIST⟩
  | _ :: _ =>
    match fs.stat (dirOf p) with
    | .error e => .error ⟨"mkdir", p, e⟩
    | .ok (.file _) => .error ⟨"mkdir", p, .ENOTDIR⟩
    | .ok .dir =>
      match fs.lookup p with
      | some _ => .error ⟨"mkdir", p, .EEXIST⟩
      | none => .ok (fs.set p .dir)

/-- `os.MkdirAll`, on the reversed path (so that the parent is a structural subterm):
succeed at once on a directory, fail at once on anything else that exists, otherwise make
the parent and then the directory itself, re-checking when `Mkdir` fails.  The filesystem
reached is returned also when an error is. -/
def mkdirAllRev (fs : FS) : List String → FS × Option PathError
  | [] => (fs, none)
  | c :: rp =>
    let p : Path := (c :: rp).reverse
    match fs.stat p with
    | .ok .dir => (fs, none)
    | .ok (.file _) => (fs, some ⟨"mkdir", p, .ENOTDIR⟩)
    | .error _ =>
      match mkdirAllRev fs rp with
      | (fs1, some e) => (fs1, some e)
      | (fs1, none) =>
        match Mkdir fs1 p with
        | .ok fs2 => (fs2, none)
        | .error e =>
          match fs1.stat p with
          | .ok .dir => (fs1, none)
          | _ => (fs1, some e)

/-- `os.MkdirAll`. -/
def MkdirAll (fs : FS) (p : Path) : FS × Option PathError := mkdirAllRev fs p.reverse

/-- `os.Create`: open for writing, creating or truncating; the file is empty afterwards. -/
def Create (fs : FS) (p : Path) : Except PathError FS :=
  match p with
  | [] => .error ⟨"open", p, .EISDIR⟩
  | _ :: _ =>
    match fs.stat (dirOf p) with
    | .error e => .error ⟨"open", p, e⟩
    | .ok (.file _) => .error ⟨"open", p, .ENOTDIR⟩
    | .ok .dir =>
      match fs.lookup p with
      | some .dir => .error ⟨"open", p, .EISDIR⟩
      | _ => .ok (fs.set p (.file []))

/-- Writing `bytes` through the handle of the freshly created (empty) file at `p`. -/
def FS.write (fs : FS) (p : Path) (bytes : Bytes) : FS := fs.set p (.file bytes)

/-! ## The configuration document and the collaborators -/

/-- Modelled from the spec: one raw header declaration of a file entry (the `headers`
attribute of FileEntry); the type lives in the config package. -/
structure HTTPHeader where
  Name : String
  Value : Option String
  deriving DecidableEq, Repr

/-- Modelled from the spec: the content of a file entry, `contentSource` (a pointer in the
code, dereferenced as `*file.Contents.Source`; `none` is the nil pointer) and `headers`. -/
structure Resource where
  Source : Option String
  HTTPHeaders : List HTTPHeader
  deriving DecidableEq, Repr

/-- Modelled from the spec: FileEntry. `Overwrite` is the tri-state flag (a pointer in the
code, dereferenced as `*file.Overwrite`; `none` is the nil pointer). -/
structure File where
  Path : String
  Overwrite : Option Bool
  Contents : Resource
  deriving DecidableEq, Repr

/-- The storage section of the document: `cfg.Storage.Files`. -/
structure Storage where
  Files : List File
  deriving DecidableEq, Repr

/-- The structured document the Config Loader returns. -/
structure Config where
  Storage : Storage
  deriving DecidableEq, Repr

/-- Modelled from the spec: the diagnostic report, which exposes its entries, whether it
is fatal (`IsFatal()`) and its text (`String()`). -/
structure Report where
  Entries : List String
  IsFatal : Bool
  String : String
  deriving DecidableEq, Repr

/-- A parsed source locator (`url.URL`), opaque to the program. -/
abbrev URL := String

/-- A parsed header set (`http.Header`), opaque to the program. -/
abbrev Header := List (String × List String)

/-- The collaborators and inputs of a run that are outside `main.go`.  Errors are carried
as their text. -/
structure Env where
  /-- The version banner, `version.String`. -/
  versionString : String
  /-- Whether `filepath.Abs` resolves the `-output` argument, and to what. -/
  Abs : String → Except String Path
  /-- The result of `io.ReadAll(os.Stdin)`. -/
  ReadStdin : Except String Bytes
  /-- The result of `os.ReadFile` on a config path. -/
  ReadFile : String → Except String Bytes
  /-- The Config Loader, `config.Parse`. -/
  Parse : Bytes → Config × Report × Option String
  /-- The function `url.Parse`. -/
  urlParse : String → Except String URL
  /-- The header resolution, `HTTPHeaders.Parse`. -/
  headersParse : List HTTPHeader → Except String Header
  /-- The Content Fetcher, `Fetcher.Fetch`: the bytes it writes into the sink, and its error. -/
  Fetch : URL → Header → Bytes × Option String

/-! ## Events, outcomes, results -/

/-- What a run does, in program order: calls of the console helpers `stdout` and `stderr`
(format string and operands), the usage text, and calls that touch the filesystem, the
config input or a collaborator. -/
inductive Event
  | stdout (format : String) (args : List String)
  | stderr (format : String) (args : List String)
  | usage
  | readDir (p : Path)
  | mkdir (p : Path)
  | mkdirAll (p : Path)
  | create (p : Path)
  | readConfig (arg : String)
  | parse (blob : Bytes)
  | urlParse (src : String)
  | headersParse (hs : List HTTPHeader)
  | fetch (u : URL) (h : Header) (dest : Path)
  deriving DecidableEq, Repr

/-- The terminal state of one entry: which `return` of the per-entry closure was taken. -/
inductive Terminal
  | Skipped
  | DirError
  | CreateError
  | SourceError
  | HeaderError
  | FetchError
  | Written
  deriving DecidableEq, Repr

/-- How the process ends: an exit status (0 on return from `main`, 1 from `os.Exit(1)`),
or a Go runtime panic, which aborts the process. -/
inductive Exit
  | code (n : Nat)
  | panic
  deriving DecidableEq, Repr

/-- The processing of one entry: filesystem reached, events, and the terminal state
(`none` when the closure panicked). -/
structure Step where
  fs : FS
  trace : List Event
  outcome : Option Terminal
  deriving DecidableEq, Repr

/-- The result of the loop or of a run: final filesystem, events, exit, and the entries
whose processing ended, each with its terminal state, in the order they were visited. -/
structure Result where
  fs : FS
  trace : List Event
  exit : Exit
  visited : List (File × Terminal)
  deriving DecidableEq, Repr

/-! ## The program -/

/-- The helper `die`: one `stderr` call, then `os.Exit(1)`. -/
def die (fs : FS) (trace : List Event) (format : String) (args : List String) : Result :=
  ⟨fs, trace ++ [.stderr format args], .code 1, []⟩

/-- The body of the per-entry closure of `runIgnExtract` (lines 119-158).  Dereferencing
`file.Overwrite` or `file.Contents.Source` when it is nil panics.  The deferred
`osFile.Close()` changes neither the filesystem nor the console and is left out. -/
def processFile (env : Env) (abs : Path) (fs : FS) (file : File) : Step :=
  match file.Overwrite with
  | none => ⟨fs, [], none⟩
  | some false => ⟨fs, [.stdout ("skiping non-overwrite file: " ++ file.Path) []], some .Skipped⟩
  | some true =>
    let filePath := join abs file.Path
    let dir := dirOf filePath
    match MkdirAll fs dir with
    | (fs1, some err) =>
      ⟨fs1, [.mkdirAll dir,
             .stderr ("cannot mkdir: " ++ pathStr dir ++ ": " ++ err.Error) []], some .DirError⟩
    | (fs1, none) =>
      match Create fs1 filePath with
      | .error err =>
        ⟨fs1, [.mkdirAll dir, .create filePath,
               .stderr ("cannot create file content: " ++ pathStr filePath ++ ", " ++ err.Error) []],
          some .CreateError⟩
      | .ok fs2 =>
        match file.Contents.Source with
        | none => ⟨fs2, [.mkdirAll dir, .create filePath], none⟩
        | some src =>
          match env.urlParse src with
          | .error err =>
            ⟨fs2, [.mkdirAll dir, .create filePath, .urlParse src,
                   .stderr ("cannot read content: " ++ err) []], some .SourceError⟩
          | .ok fileUrl =>
            match env.headersParse file.Contents.HTTPHeaders with
            | .error err =>
              ⟨fs2, [.mkdirAll dir, .create filePath, .urlParse src,
                     .headersParse file.Contents.HTTPHeaders,
                     .stderr ("cannot read content headers: " ++ err) []], some .HeaderError⟩
            | .ok headers =>
              match env.Fetch fileUrl headers with
              | (bytes, some err) =>
                ⟨fs2.write filePath bytes,
                  [.mkdirAll dir, .create filePath, .urlParse src,
                   .headersParse file.Contents.HTTPHeaders, .stdout file.Path [],
                   .fetch fileUrl headers filePath,
                   .stderr ("cannot write file: " ++ err) []], some .FetchError⟩
              | (bytes, none) =>
                ⟨fs2.write filePath bytes,
                  [.mkdirAll dir, .create filePath, .urlParse src,
                   .headersParse file.Contents.HTTPHeaders, .stdout file.Path [],
                   .fetch fileUrl headers filePath], some .Written⟩

/-- The extraction loop (lines 118-160): the entries in document order; a panic in one
entry aborts the process, otherwise the loop advances, and the run returns (exit 0) after
the last entry. -/
def extractLoop (env : Env) (abs : Path) : List File → FS → Result
  | [], fs => ⟨fs, [], .code 0, []⟩
  | file :: rest, fs =>
    let s := processFile env abs fs file
    match s.outcome with
    | none => ⟨s.fs, s.trace, .panic, []⟩
    | some t =>
      let r := extractLoop env abs rest s.fs
      ⟨r.fs, s.trace ++ r.trace, r.exit, (file, t) :: r.visited⟩

/-- The output-directory preparation (lines 79-94): list the directory, create it when it
does not exist, refuse a directory that cannot be listed or is not empty. -/
def prepare (fs : FS) (abs : Path) : Except Result (FS × List Event) :=
  match ReadDir fs abs with
  | .error err =>
    if IsNotExist err then
      match Mkdir fs abs with
      | .error err2 =>
        .error (die fs [.readDir abs,
          .stdout ("output dir not found, creating dir at: " ++ pathStr abs) [], .mkdir abs]
          "can't create output dir: %s: &v" [pathStr abs, err2.Error])
      | .ok fs1 =>
        .ok (fs1, [.readDir abs,
          .stdout ("output dir not found, creating dir at: " ++ pathStr abs) [], .mkdir abs])
    else
      .error (die fs [.readDir abs] "can't open output dir: %s: &v" [pathStr abs, err.Error])
  | .ok dir =>
    if dir.length ≠ 0 then
      .error (die fs [.readDir abs] "output dir not empty: %s" [pathStr abs])
    else .ok (fs, [.readDir abs])

/-- Reading the config input (lines 96-101): standard input for `-`, else the named file. -/
def readBlob (env : Env) (arg : String) : Except String Bytes :=
  if arg = "-" then env.ReadStdin else env.ReadFile arg

/-- Reading and parsing the configuration (lines 96-114), then the loop. -/
def loadAndExtract (env : Env) (arg : String) (abs : Path) (fs : FS) (t : List Event) : Result :=
  match readBlob env arg with
  | .error err => die fs (t ++ [.readConfig arg]) "couldn't read config: %v" [err]
  | .ok blob =>
    match env.Parse blob with
    | (cfg, rpt, err) =>
      let t1 := t ++ [.readConfig arg, .parse blob]
      let t2 := if rpt.Entries.length > 0 then t1 ++ [.stdout rpt.String []] else t1
      if rpt.IsFatal then ⟨fs, t2, .code 1, []⟩
      else
        match err with
        | some e => die fs t2 "couldn't parse config: %v" [e]
        | none =>
          let r := extractLoop env abs cfg.Storage.Files fs
          ⟨r.fs, t2 ++ r.trace, r.exit, r.visited⟩

/-- The function `runIgnExtract` (lines 64-161), for given flag values, arguments and
initial filesystem. -/
def runIgnExtract (env : Env) (flagVersion : Bool) (flagOutput : String)
    (args : List String) (fs : FS) : Result :=
  if flagVersion then ⟨fs, [.stdout env.versionString []], .code 0, []⟩
  else
    match args with
    | [arg] =>
      match env.Abs flagOutput with
      | .error err => die fs [] "output not valid: %s" [err]
      | .ok abs =>
        match prepare fs abs with
        | .error r => r
        | .ok (fs1, t) => loadAndExtract env arg abs fs1 t
    | _ => ⟨fs, [.usage], .code 1, []⟩

/-! ## Vocabulary of the properties -/

/-- The destination of an entry: its path joined onto the output root (line 124). -/
def dest (abs : Path) (file : File) : Path := join abs file.Path

/-- A well-formed filesystem: the parent of every node is a directory. -/
def FS.WF (fs : FS) : Prop := ∀ e ∈ fs.nodes, fs.lookup (dirOf e.1) = some .dir

instance (fs : FS) : Decidable fs.WF := by
  unfold FS.WF
  infer_instance

/-- The path `d` is free in `fs`: `d` itself does not exist, and each of its proper
prefixes either does not exist or is a directory. -/
def Free (fs : FS) (d : Path) : Prop :=
  ∀ q, q <+: d → fs.lookup q = none ∨ (fs.lookup q = some .dir ∧ q ≠ d)

/-- Two destinations do not conflict: neither is the other nor one of its ancestors. -/
def NonConflict (a b : Path) : Prop := ¬ a <+: b ∧ ¬ b <+: a

instance (a b : Path) : Decidable (NonConflict a b) := by
  unfold NonConflict
  infer_instance

/-- No nil pointer is dereferenced while the entry is processed: the overwrite flag is
set, and the content source is present when the flag is true. -/
def Complete (file : File) : Prop :=
  file.Overwrite ≠ none ∧ (file.Overwrite = some true → file.Contents.Source ≠ none)

/-- An entry whose source resolves to the bytes `b`: the source is present and parses,
the headers parse, and the Content Fetcher delivers `b` without an error. -/
def Resolves (env : Env) (file : File) (b : Bytes) : Prop :=
  ∃ src u h, file.Contents.Source = some src ∧ env.urlParse src = .ok u ∧
    env.headersParse file.Contents.HTTPHeaders = .ok h ∧ env.Fetch u h = (b, none)

/-- Whether an event is a line on standard error. -/
def Event.isStderr : Event → Bool
  | .stderr _ _ => true
  | _ => false

/-- The error lines an entry with overwrite true gives rise to once its destination file
has been created: one for the first of source, headers and fetch that fails, else none. -/
def lateErrors (env : Env) (file : File) : List Event :=
  match file.Overwrite, file.Contents.Source with
  | some true, some src =>
    match env.urlParse src with
    | .error err => [.stderr ("cannot read content: " ++ err) []]
    | .ok u =>
      match env.headersParse file.Contents.HTTPHeaders with
      | .error err => [.stderr ("cannot read content headers: " ++ err) []]
      | .ok h =>
        match (env.Fetch u h).2 with
        | some err => [.stderr ("cannot write file: " ++ err) []]
        | none => []
  | _, _ => []

/-! ## A concrete environment -/

/-- A file entry with a `data:` source and no headers. -/
def entry (path : String) (overwrite : Option Bool) (source : Option String) : File :=
  ⟨path, overwrite, ⟨source, []⟩⟩

/-- A concrete environment: the output argument `out` resolves to `/out`, every config
input reads as the empty blob and parses to the given file list with the given report and
error; a source parses unless it starts with `:`, headers always parse, and fetching a
source delivers the code points after its first six characters (`data:,`), failing after
that when the source ends in `!`. -/
def demoEnv (files : List File) (rpt : Report) (err : Option String) : Env where
  versionString := "0.0.0"
  Abs := fun s => if s = "out" then .ok ["out"] else .error "getwd: no such file or directory"
  ReadStdin := .ok []
  ReadFile := fun _ => .ok []
  Parse := fun _ => (⟨⟨files⟩⟩, rpt, err)
  urlParse := fun s =>
    match s.data with
    | ':' :: _ => .error "missing protocol scheme"
    | _ => .ok s
  headersParse := fun _ => .ok []
  Fetch := fun u _ =>
    ((u.data.drop 6).map Char.toNat,
      if u.data.getLast? = some '!' then some "unexpected EOF" else none)

/-- The empty diagnostic report. -/
def noReport : Report := ⟨[], false, ""⟩

theorem lookupIn_filter_ne (l : List (Path × Node)) (p q : Path) (h : q ≠ p) :
    lookupIn (l.filter (fun e => !decide (e.1 = p))) q = lookupIn l q := by
  induction l with
  | nil => rfl
  | cons e l ih =>
    obtain ⟨r, n⟩ := e
    by_cases hr : r = p
    · subst hr
      have hrq : ¬ r = q := fun h2 => h h2.symm
      simp [List.filter_cons, lookupIn, hrq, ih]
    · by_cases hq : r = q
      · subst hq
        simp [List.filter_cons, lookupIn, hr]
      · simp [List.filter_cons, lookupIn, hr, hq, ih]

theorem lookup_set (fs : FS) (p : Path) (n : Node) (q : Path) (hp : p ≠ []) :
    (fs.set p n).lookup q = if q = p then some n else fs.lookup q := by
  cases q with
  | nil =>
    have : ¬ ([] : Path) = p := fun h => hp h.symm
    simp [FS.lookup, this]
  | cons a l =>
    by_cases h : a :: l = p
    · subst h
      simp [FS.lookup, FS.set, lookupIn]
    · have h2 : ¬ p = a :: l := fun h3 => h h3.symm
      simp only [FS.lookup, FS.set, lookupIn, h, h2, if_false]
      exact lookupIn_filter_ne fs.nodes p (a :: l) h

theorem walk_ok_iff (fs : FS) (rest : List String) (cur : Path) (n : Node) :
    walk fs cur rest = .ok n ↔
      fs.lookup (cur ++ rest) = some n ∧
        ∀ q, q <+: rest → q ≠ rest → fs.lookup (cur ++ q) = some .dir := by
  induction rest generalizing cur with
  | nil =>
    simp only [walk, List.append_nil]
    constructor
    · intro h
      refine ⟨?_, ?_⟩
      · cases hl : fs.lookup cur with
        | none => simp [hl] at h
        | some m => simp [hl] at h; simp [h]
      · intro q hq hne
        exact absurd (List.prefix_nil.mp hq) hne
    · rintro ⟨h, -⟩
      simp [h]
  | cons c cs ih =>
    simp only [walk]
    constructor
    · intro h
      cases hl : fs.lookup cur with
      | none => simp [hl] at h
      | some m =>
        cases m with
        | file b => simp [hl] at h
        | dir =>
          simp only [hl] at h
          have := (ih (cur ++ [c])).mp h
          simp only [List.append_assoc, List.singleton_append] at this
          refine ⟨this.1, ?_⟩
          intro q hq hne
          cases q with
          | nil => simpa using hl
          | cons a q2 =>
            obtain ⟨rfl, hq2⟩ := List.cons_prefix_cons.mp hq
            have hne2 : q2 ≠ cs := fun h3 => hne (by rw [h3])
            exact this.2 q2 hq2 hne2
    · rintro ⟨h1, h2⟩
      have hl : fs.lookup cur = some .dir := by
        have := h2 [] (List.nil_prefix) (by simp)
        simpa using this
      simp only [hl]
      apply (ih (cur ++ [c])).mpr
      simp only [List.append_assoc, List.singleton_append]
      refine ⟨h1, ?_⟩
      intro q hq hne
      exact h2 (c :: q) (List.cons_prefix_cons.mpr ⟨rfl, hq⟩) (by simpa using hne)

theorem stat_ok_iff (fs : FS) (p : Path) (n : Node) :
    fs.stat p = .ok n ↔
      fs.lookup p = some n ∧ ∀ q, q <+: p → q ≠ p → fs.lookup q = some .dir := by
  simpa [FS.stat] using walk_ok_iff fs p [] n

theorem Mkdir_ok_iff (fs fs2 : FS) (p : Path) :
    Mkdir fs p = .ok fs2 ↔
      p ≠ [] ∧ fs.stat (dirOf p) = .ok .dir ∧ fs.lookup p = none ∧ fs2 = fs.set p .dir := by
  cases p with
  | nil => simp [Mkdir]
  | cons a l =>
    simp only [Mkdir]
    cases hs : fs.stat (dirOf (a :: l)) with
    | error e => simp
    | ok n =>
      cases n with
      | file b => simp
      | dir =>
        cases hl : fs.lookup (a :: l) with
        | some m => simp
        | none =>
          simp only [ne_eq, reduceCtorEq, not_false_eq_true, true_and, Except.ok.injEq]
          exact eq_comm

theorem Create_ok_iff (fs fs2 : FS) (p : Path) :
    Create fs p = .ok fs2 ↔
      p ≠ [] ∧ fs.stat (dirOf p) = .ok .dir ∧ fs.lookup p ≠ some .dir ∧
        fs2 = fs.set p (.file []) := by
  cases p with
  | nil => simp [Create]
  | cons a l =>
    simp only [Create]
    cases hs : fs.stat (dirOf (a :: l)) with
    | error e => simp
    | ok n =>
      cases n with
      | file b => simp
      | dir =>
        cases hl : fs.lookup (a :: l) with
        | none =>
          simp only [ne_eq, reduceCtorEq, not_false_eq_true, true_and, Except.ok.injEq]
          exact eq_comm
        | some m =>
          cases m with
          | dir => simp
          | file b =>
            simp only [ne_eq, reduceCtorEq, not_false_eq_true, true_and, Except.ok.injEq,
              Option.some.injEq]
            exact eq_comm

/-- What `MkdirAll` can change at a path: nothing, or a missing prefix of its argument
becomes a directory. -/
theorem mkdirAllRev_lookup (fs : FS) (rp : List String) (q : Path) :
    (mkdirAllRev fs rp).1.lookup q = fs.lookup q ∨
      (fs.lookup q = none ∧ q <+: rp.reverse ∧
        (mkdirAllRev fs rp).1.lookup q = some .dir) := by
  induction rp with
  | nil => exact Or.inl rfl
  | cons c rp ih =>
    have hpre : ∀ q : Path, q <+: rp.reverse → q <+: (c :: rp).reverse := by
      intro q hq
      rw [List.reverse_cons]
      exact hq.trans (List.prefix_append _ _)
    have ih2 : (mkdirAllRev fs rp).1.lookup q = fs.lookup q ∨
        (fs.lookup q = none ∧ q <+: (c :: rp).reverse ∧
          (mkdirAllRev fs rp).1.lookup q = some .dir) := by
      rcases ih with h | ⟨h1, h2, h3⟩
      · exact Or.inl h
      · exact Or.inr ⟨h1, hpre q h2, h3⟩
    simp only [mkdirAllRev]
    split
    · exact Or.inl rfl
    · exact Or.inl rfl
    · split
      · rename_i fs1 e heq
        rw [heq] at ih2
        exact ih2
      · rename_i fs1 heq
        rw [heq] at ih2
        simp only at ih2
        split
        · rename_i fs2 hmk
          obtain ⟨hne, -, hnone, rfl⟩ := (Mkdir_ok_iff _ _ _).mp hmk
          simp only [lookup_set _ _ _ _ hne]
          by_cases hq : q = (c :: rp).reverse
          · subst hq
            simp only [if_true]
            right
            refine ⟨?_, List.prefix_rfl, trivial⟩
            rcases ih2 with h | ⟨h1, -, -⟩
            · rw [← h]; exact hnone
            · exact h1
          · simp only [hq, if_false]
            exact ih2
        · split
          · exact ih2
          · exact ih2

theorem prefix_reverse_cons {q : Path} {c : String} {rp : List String}
    (hq : q <+: (c :: rp).reverse) (hne : q ≠ (c :: rp).reverse) : q <+: rp.reverse := by
  rw [List.reverse_cons] at hq hne
  rcases List.prefix_concat_iff.mp hq with h | h
  · exact absurd h hne
  · exact h

/-- When `MkdirAll` reports no error, its argument resolves to a directory. -/
theorem mkdirAllRev_ok_stat (fs : FS) (rp : List String)
    (h : (mkdirAllRev fs rp).2 = none) :
    (mkdirAllRev fs rp).1.stat rp.reverse = .ok .dir := by
  cases rp with
  | nil => rfl
  | cons c rp =>
    simp only [mkdirAllRev] at h ⊢
    split at h
    · rename_i hs
      try simp only [hs]
    · simp at h
    · rename_i e hs
      try simp only [hs]
      split at h
      · simp at h
      · rename_i fs1 heq
        try simp only [heq]
        split at h
        · rename_i fs2 hmk
          try simp only [hmk]
          obtain ⟨hne, hpar, -, rfl⟩ := (Mkdir_ok_iff _ _ _).mp hmk
          rw [stat_ok_iff]
          simp only [lookup_set _ _ _ _ hne, if_true, true_and]
          intro q hq hqne
          simp only [hqne, if_false]
          have hq2 := prefix_reverse_cons hq hqne
          have hd : dirOf (c :: rp).reverse = rp.reverse := by
            simp [dirOf, List.reverse_cons]
          rw [hd, stat_ok_iff] at hpar
          by_cases hq3 : q = rp.reverse
          · rw [hq3]; exact hpar.1
          · exact hpar.2 q hq2 hq3
        · rename_i e2 hmk
          try simp only [hmk]
          split at h
          · rename_i hs1
            try simp only [hs1]
          · simp at h

/-- The function `MkdirAll` succeeds when no prefix of its argument is a regular file. -/
theorem mkdirAllRev_success (fs : FS) (rp : List String)
    (h : ∀ q, q <+: rp.reverse → fs.lookup q = none ∨ fs.lookup q = some .dir) :
    (mkdirAllRev fs rp).2 = none := by
  induction rp with
  | nil => rfl
  | cons c rp ih =>
    have ih2 := ih (fun q hq => h q (by
      rw [List.reverse_cons]; exact hq.trans (List.prefix_append _ _)))
    have hok := mkdirAllRev_ok_stat fs rp ih2
    have hlk := mkdirAllRev_lookup fs rp (c :: rp).reverse
    simp only [mkdirAllRev]
    split
    · rfl
    · rename_i b hs
      have := ((stat_ok_iff _ _ _).mp hs).1
      rcases h _ List.prefix_rfl with h1 | h1 <;> rw [this] at h1 <;> simp at h1
    · split
      · rename_i fs1 e heq
        rw [heq] at ih2
        exact absurd ih2 (by simp)
      · rename_i fs1 heq
        rw [heq] at hok hlk
        simp only at hok hlk
        split
        · rfl
        · rename_i e2 hmk
          have hd : dirOf (c :: rp).reverse = rp.reverse := by
            simp [dirOf, List.reverse_cons]
          have hne : (c :: rp).reverse ≠ [] := by simp
          have hdir : fs1.lookup (c :: rp).reverse = some .dir := by
            cases hl : fs1.lookup (c :: rp).reverse with
            | none =>
              have := (Mkdir_ok_iff fs1 (fs1.set (c :: rp).reverse .dir) (c :: rp).reverse).mpr
                ⟨hne, by rw [hd]; exact hok, hl, rfl⟩
              rw [hmk] at this
              exact absurd this (by simp)
            | some m =>
              rcases hlk with h1 | ⟨-, -, h3⟩
              · rw [hl] at h1
                rcases h _ List.prefix_rfl with h2 | h2
                · rw [h2] at h1; exact absurd h1 (by simp)
                · rw [h2] at h1; exact h1
              · rw [hl] at h3; exact h3
          have hst : fs1.stat (c :: rp).reverse = .ok .dir := by
            rw [stat_ok_iff]
            refine ⟨hdir, ?_⟩
            intro q hq hqne
            have hq2 := prefix_reverse_cons hq hqne
            rw [stat_ok_iff] at hok
            by_cases hq3 : q = rp.reverse
            · rw [hq3]; exact hok.1
            · exact hok.2 q hq2 hq3
          simp only [hst]

theorem MkdirAll_lookup (fs : FS) (p q : Path) :
    (MkdirAll fs p).1.lookup q = fs.lookup q ∨
      (fs.lookup q = none ∧ q <+: p ∧ (MkdirAll fs p).1.lookup q = some .dir) := by
  have := mkdirAllRev_lookup fs p.reverse q
  rwa [List.reverse_reverse] at this

theorem MkdirAll_ok_stat (fs : FS) (p : Path) (h : (MkdirAll fs p).2 = none) :
    (MkdirAll fs p).1.stat p = .ok .dir := by
  have := mkdirAllRev_ok_stat fs p.reverse h
  rwa [List.reverse_reverse] at this

theorem MkdirAll_success (fs : FS) (p : Path)
    (h : ∀ q, q <+: p → fs.lookup q = none ∨ fs.lookup q = some .dir) :
    (MkdirAll fs p).2 = none := by
  apply mkdirAllRev_success
  rwa [List.reverse_reverse]

theorem not_prefix_dropLast (d : Path) (hd : d ≠ []) : ¬ d <+: d.dropLast := by
  intro h
  have h1 := h.length_le
  have h2 : 0 < d.length := List.length_pos.mpr hd
  simp only [List.length_dropLast] at h1
  omega

/-! ## Facts about one entry -/

/-- Away from its destination, processing an entry changes nothing, except that missing
ancestors of the destination may become directories. -/
theorem processFile_lookup (env : Env) (abs : Path) (fs : FS) (f : File) (q : Path)
    (hq : q ≠ dest abs f) :
    (processFile env abs fs f).fs.lookup q = fs.lookup q ∨
      (fs.lookup q = none ∧ q <+: dirOf (dest abs f) ∧
        (processFile env abs fs f).fs.lookup q = some .dir) := by
  have hmk := MkdirAll_lookup fs (dirOf (dest abs f)) q
  have hset : ∀ (fs1 fs2 : FS), Create fs1 (dest abs f) = .ok fs2 →
      fs2.lookup q = fs1.lookup q ∧
        ∀ b, (fs2.write (dest abs f) b).lookup q = fs1.lookup q := by
    intro fs1 fs2 hc
    obtain ⟨hne, -, -, rfl⟩ := (Create_ok_iff _ _ _).mp hc
    simp [FS.write, lookup_set _ _ _ _ hne, hq]
  unfold processFile
  simp only [← dest.eq_1 abs f]
  split
  · exact Or.inl rfl
  · exact Or.inl rfl
  · split
    · rename_i fs1 err heq
      rw [heq] at hmk
      exact hmk
    · rename_i fs1 heq
      rw [heq] at hmk
      split
      · exact hmk
      · rename_i fs2 hc
        obtain ⟨h1, h2⟩ := hset fs1 fs2 hc
        split
        · simp only [h1]; exact hmk
        · split
          · simp only [h1]; exact hmk
          · split
            · simp only [h1]; exact hmk
            · split
              · simp only [h2]; exact hmk
              · simp only [h2]; exact hmk

/-- On a free destination, directory materialization and file creation both succeed. -/
theorem free_create (fs : FS) (d : Path) (h : Free fs d) :
    (MkdirAll fs (dirOf d)).2 = none ∧
      Create (MkdirAll fs (dirOf d)).1 d = .ok ((MkdirAll fs (dirOf d)).1.set d (.file [])) := by
  have hd : d ≠ [] := by
    intro h0
    subst h0
    rcases h [] List.prefix_rfl with h1 | ⟨-, h2⟩
    · simp [FS.lookup] at h1
    · exact h2 rfl
  have hmk : (MkdirAll fs (dirOf d)).2 = none := by
    apply MkdirAll_success
    intro q hq
    rcases h q (hq.trans (List.dropLast_prefix d)) with h1 | ⟨h1, -⟩
    · exact Or.inl h1
    · exact Or.inr h1
  refine ⟨hmk, ?_⟩
  rw [Create_ok_iff]
  refine ⟨hd, MkdirAll_ok_stat _ _ hmk, ?_, rfl⟩
  rcases MkdirAll_lookup fs (dirOf d) d with h1 | ⟨-, h2, -⟩
  · rw [h1]
    rcases h d List.prefix_rfl with h3 | ⟨-, h3⟩
    · simp [h3]
    · exact absurd rfl h3
  · exact absurd h2 (not_prefix_dropLast d hd)

/-- A destination that is free stays free when an entry with a non-conflicting destination
is processed. -/
theorem free_preserved (env : Env) (abs : Path) (fs : FS) (f : File) (d : Path)
    (hfree : Free fs d) (hnc : NonConflict (dest abs f) d) :
    Free (processFile env abs fs f).fs d := by
  intro q hq
  have hqd : q ≠ dest abs f := by
    intro h
    subst h
    exact hnc.1 hq
  rcases processFile_lookup env abs fs f q hqd with h1 | ⟨-, h2, h3⟩
  · rw [h1]; exact hfree q hq
  · right
    refine ⟨h3, ?_⟩
    intro h
    subst h
    exact hnc.2 (h2.trans (List.dropLast_prefix _))

/-- A file that exists is left alone by an entry whose destination it is not a prefix of. -/
theorem file_preserved (env : Env) (abs : Path) (fs : FS) (f : File) (d : Path) (b : Bytes)
    (hfile : fs.lookup d = some (.file b)) (hnc : ¬ d <+: dest abs f) :
    (processFile env abs fs f).fs.lookup d = some (.file b) := by
  have hqd : d ≠ dest abs f := by
    intro h
    apply hnc
    rw [← h]
  rcases processFile_lookup env abs fs f d hqd with h1 | ⟨h1, -, -⟩
  · rw [h1]; exact hfile
  · rw [hfile] at h1; exact absurd h1 (by simp)

/-- An entry with overwrite true, a source and a free destination: it ends in a terminal
state, its error lines are the late ones, and a resolving source is written in full. -/
theorem processFile_free (env : Env) (abs : Path) (fs : FS) (f : File)
    (hov : f.Overwrite = some true) (hfree : Free fs (dest abs f))
    (hsrc : f.Contents.Source ≠ none) :
    (∃ t, (processFile env abs fs f).outcome = some t) ∧
      (processFile env abs fs f).trace.filter Event.isStderr = lateErrors env f ∧
      ∀ b, Resolves env f b →
        (processFile env abs fs f).fs.lookup (dest abs f) = some (.file b) := by
  obtain ⟨hmk, hcr⟩ := free_create fs (dest abs f) hfree
  have hne : dest abs f ≠ [] := ((Create_ok_iff _ _ _).mp hcr).1
  obtain ⟨src, hs⟩ := Option.ne_none_iff_exists'.mp hsrc
  have hpair : MkdirAll fs (dirOf (dest abs f)) = ((MkdirAll fs (dirOf (dest abs f))).1, none) := by
    rw [← hmk]
  unfold processFile lateErrors Resolves
  simp only [← dest.eq_1 abs f, hov, hs]
  rw [hpair]
  simp only [hcr]
  cases hu : env.urlParse src with
  | error err => simp [Event.isStderr, hu]
  | ok u =>
    cases hh : env.headersParse f.Contents.HTTPHeaders with
    | error err => simp [Event.isStderr, hu, hh]
    | ok h =>
      rcases hf : env.Fetch u h with ⟨bytes, _ | err⟩
      · simp only [Event.isStderr, FS.write, lookup_set _ _ _ _ hne, hf, hu, hh]
        simp [Event.isStderr]
        intro b x hx hb
        rw [hu] at hx
        cases hx
        rw [hf] at hb
        simpa using hb
      · simp only [Event.isStderr, FS.write, lookup_set _ _ _ _ hne, hf, hu, hh]
        simp [Event.isStderr]
        intro b x hx hb
        rw [hu] at hx
        cases hx
        rw [hf] at hb
        simp at hb

/-- An entry with explicit-false overwrite is skipped and touches nothing. -/
theorem processFile_false (env : Env) (abs : Path) (fs : FS) (f : File)
    (hov : f.Overwrite = some false) :
    processFile env abs fs f =
      ⟨fs, [.stdout ("skiping non-overwrite file: " ++ f.Path) []], some .Skipped⟩ := by
  unfold processFile
  simp only [hov]

/-! ## Facts about the loop -/

/-- A file that exists survives the loop when it is not a prefix of the destination of any
entry with overwrite true. -/
theorem loop_file_preserved (env : Env) (abs : Path) (d : Path) (b : Bytes) :
    ∀ (files : List File) (fs : FS), fs.lookup d = some (.file b) →
      (∀ g ∈ files, g.Overwrite = some true → ¬ d <+: dest abs g) →
      (extractLoop env abs files fs).fs.lookup d = some (.file b) := by
  intro files
  induction files with
  | nil => intro fs h _; exact h
  | cons f rest ih =>
    intro fs h hnc
    have hstep : (processFile env abs fs f).fs.lookup d = some (.file b) := by
      by_cases hov : f.Overwrite = some true
      · exact file_preserved env abs fs f d b h (hnc f (List.mem_cons_self _ _) hov)
      · have : (processFile env abs fs f).fs = fs := by
          unfold processFile
          split
          · rfl
          · rfl
          · rename_i h2; exact absurd h2 hov
        rw [this]; exact h
    simp only [extractLoop]
    split
    · exact hstep
    · exact ih _ hstep (fun g hg => hnc g (List.mem_cons_of_mem _ hg))

/-- The loop over entries that dereference no nil pointer and whose destinations are free
and pairwise non-conflicting: it runs to the end, visits the entries in order, emits the
late error lines only, and leaves every resolving entry written in full. -/
theorem loop_inv (env : Env) (abs : Path) :
    ∀ (files : List File) (fs : FS),
      (∀ f ∈ files, Complete f) →
      (∀ f ∈ files, f.Overwrite = some true → Free fs (dest abs f)) →
      files.Pairwise (fun a b => a.Overwrite = some true → b.Overwrite = some true →
        NonConflict (dest abs a) (dest abs b)) →
      (extractLoop env abs files fs).exit = .code 0 ∧
      (extractLoop env abs files fs).visited.map Prod.fst = files ∧
      (extractLoop env abs files fs).trace.filter Event.isStderr
        = files.flatMap (lateErrors env) ∧
      ∀ f ∈ files, f.Overwrite = some true → ∀ b, Resolves env f b →
        (extractLoop env abs files fs).fs.lookup (dest abs f) = some (.file b) := by
  intro files
  induction files with
  | nil =>
    intro fs _ _ _
    simp [extractLoop]
  | cons f rest ih =>
    intro fs hc hfree hpair
    obtain ⟨hpf, hprest⟩ := List.pairwise_cons.mp hpair
    have hcf := hc f (List.mem_cons_self _ _)
    have hcrest : ∀ g ∈ rest, Complete g := fun g hg => hc g (List.mem_cons_of_mem _ hg)
    cases hov : f.Overwrite with
    | none => exact absurd hov hcf.1
    | some v =>
      cases v with
      | false =>
        have hstep := processFile_false env abs fs f hov
        have hfree2 : ∀ g ∈ rest, g.Overwrite = some true → Free fs (dest abs g) :=
          fun g hg => hfree g (List.mem_cons_of_mem _ hg)
        obtain ⟨h1, h2, h3, h4⟩ := ih fs hcrest hfree2 hprest
        have hl : lateErrors env f = [] := by
          unfold lateErrors
          simp [hov]
        simp only [extractLoop, hstep]
        refine ⟨h1, by simp [h2], by simp [h3, hl, Event.isStderr], ?_⟩
        intro g hg hgo b hb
        rcases List.mem_cons.mp hg with rfl | hg2
        · rw [hov] at hgo; exact absurd hgo (by simp)
        · exact h4 g hg2 hgo b hb
      | true =>
        obtain ⟨⟨t, ht⟩, hs2, hs3⟩ := processFile_free env abs fs f hov
          (hfree f (List.mem_cons_self _ _) hov) (hcf.2 hov)
        have hfree2 : ∀ g ∈ rest, g.Overwrite = some true →
            Free (processFile env abs fs f).fs (dest abs g) := by
          intro g hg hgo
          exact free_preserved env abs fs f _ (hfree g (List.mem_cons_of_mem _ hg) hgo)
            (hpf g hg hov hgo)
        obtain ⟨h1, h2, h3, h4⟩ := ih (processFile env abs fs f).fs hcrest hfree2 hprest
        simp only [extractLoop, ht]
        refine ⟨h1, by simp [h2], by simp [h3, hs2], ?_⟩
        intro g hg hgo b hb
        rcases List.mem_cons.mp hg with rfl | hg2
        · apply loop_file_preserved env abs _ b rest _ (hs3 b hb)
          intro g2 hg2 hg2o
          exact (hpf g2 hg2 hov hg2o).1
        · exact h4 g hg2 hgo b hb

/-! ## Facts about the preparation of the output directory -/

theorem lookupIn_mem (l : List (Path × Node)) (p : Path) (n : Node)
    (h : lookupIn l p = some n) : (p, n) ∈ l := by
  induction l with
  | nil => simp [lookupIn] at h
  | cons e l ih =>
    obtain ⟨r, m⟩ := e
    by_cases hr : r = p
    · subst hr
      simp [lookupIn] at h
      simp [h]
    · simp only [lookupIn, hr, if_false] at h
      exact List.mem_cons_of_mem _ (ih h)

theorem lookup_mem (fs : FS) (p : Path) (n : Node) (hp : p ≠ [])
    (h : fs.lookup p = some n) : (p, n) ∈ fs.nodes := by
  cases p with
  | nil => exact absurd rfl hp
  | cons a l => exact lookupIn_mem _ _ _ h

/-- In a well-formed filesystem the parent of an existing node is a directory. -/
theorem wf_parent (fs : FS) (hwf : fs.WF) (p : Path) (n : Node) (hp : p ≠ [])
    (h : fs.lookup p = some n) : fs.lookup (dirOf p) = some .dir :=
  hwf (p, n) (lookup_mem fs p n hp h)

theorem wf_below (fs : FS) (hwf : fs.WF) (abs : Path)
    (hc : ∀ c, fs.lookup (abs ++ [c]) = none) :
    ∀ rel : List String, rel ≠ [] → fs.lookup (abs ++ rel) = none := by
  intro rel
  induction rel using List.reverseRecOn with
  | nil => intro h; exact absurd rfl h
  | append_singleton rel c ih =>
    intro _
    by_cases hrel : rel = []
    · subst hrel; exact hc c
    · cases hl : fs.lookup (abs ++ (rel ++ [c])) with
      | none => rfl
      | some n =>
        have hne : abs ++ (rel ++ [c]) ≠ [] := by simp
        have := wf_parent fs hwf _ n hne hl
        have hd : dirOf (abs ++ (rel ++ [c])) = abs ++ rel := by
          rw [← List.append_assoc]
          simp [dirOf]
        rw [hd, ih hrel] at this
        exact absurd this (by simp)

theorem children_nil_lookup (fs : FS) (abs : Path) (h : fs.children abs = []) (c : String) :
    fs.lookup (abs ++ [c]) = none := by
  cases hl : fs.lookup (abs ++ [c]) with
  | none => rfl
  | some n =>
    have hmem := lookup_mem fs _ n (by simp) hl
    have := (List.filterMap_eq_nil_iff.mp h) _ hmem
    simp at this

/-- How the preparation can succeed: the directory was listed and is empty, or it did not
exist and was created. -/
theorem prepare_ok_cases (fs fs1 : FS) (abs : Path) (t : List Event)
    (h : prepare fs abs = .ok (fs1, t)) :
    (ReadDir fs abs = .ok [] ∧ fs1 = fs ∧ t = [.readDir abs]) ∨
    (∃ e, ReadDir fs abs = .error e ∧ e.Err = .ENOENT ∧ Mkdir fs abs = .ok fs1 ∧
      t = [.readDir abs,
        .stdout ("output dir not found, creating dir at: " ++ pathStr abs) [], .mkdir abs]) := by
  unfold prepare at h
  split at h
  · rename_i err hrd
    split at h
    · rename_i hne
      split at h
      · simp at h
      · rename_i fs2 hmk
        simp only [Except.ok.injEq, Prod.mk.injEq] at h
        right
        refine ⟨err, hrd, by simpa [IsNotExist] using hne, ?_, h.2.symm⟩
        rw [← h.1]
        exact hmk
    · simp at h
  · rename_i dir hrd
    split at h
    · simp at h
    · rename_i hlen
      simp only [Except.ok.injEq, Prod.mk.injEq] at h
      left
      have : dir = [] := by
        simpa using hlen
      subst this
      exact ⟨hrd, h.1.symm, h.2.symm⟩

theorem ReadDir_ok (fs : FS) (abs : Path) (names : List String)
    (h : ReadDir fs abs = .ok names) : fs.stat abs = .ok .dir ∧ names = fs.children abs := by
  unfold ReadDir at h
  split at h
  · simp at h
  · simp at h
  · rename_i hs
    simp only [Except.ok.injEq] at h
    exact ⟨hs, h.symm⟩

theorem ReadDir_error (fs : FS) (abs : Path) (e : PathError)
    (h : ReadDir fs abs = .error e) (he : e.Err = .ENOENT) : fs.stat abs = .error .ENOENT := by
  unfold ReadDir at h
  split at h
  · rename_i e2 hs
    simp only [Except.error.injEq] at h
    subst h
    simp only at he
    rw [hs, he]
  · simp only [Except.error.injEq] at h
    subst h
    simp at he
  · simp at h

/-- After a successful preparation of a well-formed filesystem the output root is a
directory that lists no entry, and nothing exists below it. -/
theorem prepare_ok_empty (fs fs1 : FS) (abs : Path) (t : List Event) (hwf : fs.WF)
    (h : prepare fs abs = .ok (fs1, t)) :
    fs1.stat abs = .ok .dir ∧ ReadDir fs1 abs = .ok [] ∧
      ∀ rel : List String, rel ≠ [] → fs1.lookup (abs ++ rel) = none := by
  rcases prepare_ok_cases fs fs1 abs t h with ⟨hrd, rfl, -⟩ | ⟨e, hrd, he, hmk, -⟩
  · obtain ⟨hs, hch⟩ := ReadDir_ok _ _ _ hrd
    exact ⟨hs, hrd, wf_below fs1 hwf abs (children_nil_lookup fs1 abs hch.symm)⟩
  · obtain ⟨hne, hpar, hnone, rfl⟩ := (Mkdir_ok_iff _ _ _).mp hmk
    have hstat : (fs.set abs .dir).stat abs = .ok .dir := by
      rw [stat_ok_iff]
      simp only [lookup_set _ _ _ _ hne, if_true, true_and]
      intro q hq hqne
      simp only [hqne, if_false]
      rw [stat_ok_iff] at hpar
      have hq2 : q <+: dirOf abs := by
        have := List.dropLast_concat_getLast hne
        rw [← this] at hq hqne
        rcases List.prefix_concat_iff.mp hq with h1 | h1
        · exact absurd h1 hqne
        · exact h1
      by_cases hq3 : q = dirOf abs
      · rw [hq3]; exact hpar.1
      · exact hpar.2 q hq2 hq3
    have hnochild : ∀ e ∈ fs.nodes, ¬ (e.1 ≠ [] ∧ e.1.dropLast = abs) := by
      intro e he2 hcon
      have := hwf e he2
      rw [dirOf, hcon.2, hnone] at this
      exact absurd this (by simp)
    have hchildren : (fs.set abs .dir).children abs = [] := by
      unfold FS.children FS.set
      rw [List.filterMap_eq_nil_iff]
      intro a ha
      rcases List.mem_cons.mp ha with rfl | ha2
      · have : ¬ abs.dropLast = abs := by
          intro h3
          have := not_prefix_dropLast abs hne
          rw [h3] at this
          exact this List.prefix_rfl
        simp [this]
      · have hmem := (List.mem_filter.mp ha2).1
        have := hnochild a hmem
        simp only [this, if_false]
    have hrd1 : ReadDir (fs.set abs .dir) abs = .ok [] := by
      unfold ReadDir
      simp only [hstat, hchildren]
    refine ⟨hstat, hrd1, ?_⟩
    intro rel hrel
    have hne2 : abs ++ rel ≠ abs := by
      intro h3
      have := congrArg List.length h3
      simp at this
      exact hrel this
    rw [lookup_set _ _ _ _ hne, if_neg hne2]
    apply wf_below fs hwf abs _ rel hrel
    intro c
    cases hl : fs.lookup (abs ++ [c]) with
    | none => rfl
    | some n =>
      have := wf_parent fs hwf _ n (by simp) hl
      simp only [dirOf, List.dropLast_concat] at this
      rw [hnone] at this
      exact absurd this (by simp)

/-- Below an output root that is a directory with nothing under it, every path is free. -/
theorem free_of_empty (fs : FS) (abs : Path) (hs : fs.stat abs = .ok .dir)
    (hempty : ∀ rel : List String, rel ≠ [] → fs.lookup (abs ++ rel) = none)
    (rel : List String) (hrel : rel ≠ []) : Free fs (abs ++ rel) := by
  intro q hq
  rcases List.prefix_or_prefix_of_prefix hq (List.prefix_append abs rel) with h1 | h1
  · right
    rw [stat_ok_iff] at hs
    constructor
    · by_cases h2 : q = abs
      · rw [h2]; exact hs.1
      · exact hs.2 q h1 h2
    · intro h3
      have h4 := h1.length_le
      rw [h3] at h4
      have : 0 < rel.length := List.length_pos.mpr hrel
      rw [List.length_append] at h4
      omega
  · obtain ⟨r, rfl⟩ := h1
    by_cases hr : r = []
    · subst hr
      right
      rw [stat_ok_iff] at hs
      simp only [List.append_nil]
      refine ⟨hs.1, ?_⟩
      intro h3
      have := congrArg List.length h3
      simp at this
      exact hrel this
    · left
      exact hempty r hr

/-! ## Further facts about one entry -/

theorem prefix_dirOf {q d : Path} (hq : q <+: d) (hne : q ≠ d) : q <+: dirOf d := by
  have hd : d ≠ [] := by
    intro h
    subst h
    exact hne (List.prefix_nil.mp hq)
  have := List.dropLast_concat_getLast hd
  rw [← this] at hq hne
  rcases List.prefix_concat_iff.mp hq with h1 | h1
  · exact absurd h1 hne
  · exact h1

/-- Setting a node at `d` does not change how a path that is not below `d` resolves. -/
theorem stat_set_of_not_below (fs : FS) (d p : Path) (n : Node) (hd : d ≠ [])
    (h : ¬ d <+: p) : (fs.set d n).stat p = fs.stat p := by
  have hl : ∀ q, q <+: p → (fs.set d n).lookup q = fs.lookup q := by
    intro q hq
    have : q ≠ d := by
      intro h2
      subst h2
      exact h hq
    rw [lookup_set _ _ _ _ hd, if_neg this]
  cases hs : fs.stat p with
  | ok m =>
    rw [stat_ok_iff] at hs ⊢
    refine ⟨by rw [hl p List.prefix_rfl]; exact hs.1, ?_⟩
    intro q hq hne
    rw [hl q hq]
    exact hs.2 q hq hne
  | error e =>
    cases hs2 : (fs.set d n).stat p with
    | ok m =>
      rw [stat_ok_iff] at hs2
      have : fs.stat p = .ok m := by
        rw [stat_ok_iff]
        refine ⟨by rw [← hl p List.prefix_rfl]; exact hs2.1, ?_⟩
        intro q hq hne
        rw [← hl q hq]
        exact hs2.2 q hq hne
      rw [hs] at this
      exact absurd this (by simp)
    | error e2 =>
      -- both fail: the error numbers agree because the walks agree step by step
      have key : ∀ (rest : List String) (cur : Path), cur ++ rest = p →
          walk (fs.set d n) cur rest = walk fs cur rest := by
        intro rest
        induction rest with
        | nil =>
          intro cur hcur
          simp only [walk]
          rw [hl cur (by rw [← hcur]; exact List.prefix_append _ _)]
        | cons c cs ih =>
          intro cur hcur
          simp only [walk]
          rw [hl cur (by rw [← hcur]; exact List.prefix_append _ _)]
          rw [ih (cur ++ [c]) (by simpa using hcur)]
      have := key p [] (by simp)
      simp only [FS.stat] at hs hs2
      rw [this, hs] at hs2
      exact hs2.symm

/-- Processing an entry never replaces a directory. -/
theorem processFile_dir_preserved (env : Env) (abs : Path) (fs : FS) (f : File) (q : Path)
    (hdir : fs.lookup q = some .dir) :
    (processFile env abs fs f).fs.lookup q = some .dir := by
  by_cases hq : q = dest abs f
  · have hmk := MkdirAll_lookup fs (dirOf (dest abs f)) q
    have hno : ∀ fs1 fs2, fs1.lookup q = some .dir → Create fs1 (dest abs f) ≠ .ok fs2 := by
      intro fs1 fs2 h1 hc
      have := ((Create_ok_iff _ _ _).mp hc).2.2.1
      rw [← hq] at this
      exact this h1
    have h1 : (MkdirAll fs (dirOf (dest abs f))).1.lookup q = some .dir := by
      rcases hmk with h | ⟨h, -, -⟩
      · rw [h]; exact hdir
      · rw [hdir] at h; exact absurd h (by simp)
    unfold processFile
    simp only [← dest.eq_1 abs f]
    split
    · exact hdir
    · exact hdir
    · split
      · rename_i fs1 err heq
        rw [heq] at h1
        exact h1
      · rename_i fs1 heq
        rw [heq] at h1
        split
        · exact h1
        · rename_i fs2 hc
          exact absurd hc (hno fs1 fs2 h1)
  · rcases processFile_lookup env abs fs f q hq with h | ⟨h, -, -⟩
    · rw [h]; exact hdir
    · rw [hdir] at h; exact absurd h (by simp)

theorem foldl_cleanStep_keeps_root (abs : Path) (segs : List String) (h : ".." ∉ segs) :
    ∀ acc : Path, abs <+: acc → abs <+: segs.foldl cleanStep acc := by
  induction segs with
  | nil => intro acc hacc; exact hacc
  | cons sg segs ih =>
    intro acc hacc
    have h1 : sg ≠ ".." := fun h2 => h (by simp [h2])
    have h2 : ".." ∉ segs := fun h3 => h (List.mem_cons_of_mem _ h3)
    show abs <+: List.foldl cleanStep (cleanStep acc sg) segs
    apply ih h2
    by_cases ha : sg = "" ∨ sg = "."
    · rw [cleanStep, if_pos ha]
      exact hacc
    · rw [cleanStep, if_neg ha, if_neg h1]
      exact hacc.trans (List.prefix_append _ _)

/-- An entry that dereferences no nil pointer ends in one of the terminal states. -/
theorem processFile_outcome_of_complete (env : Env) (abs : Path) (fs : FS) (f : File)
    (hc : Complete f) : ∃ t, (processFile env abs fs f).outcome = some t := by
  cases hov : f.Overwrite with
  | none => exact absurd hov hc.1
  | some v =>
    cases v with
    | false => simp [processFile, hov]
    | true =>
      obtain ⟨src, hs⟩ := Option.ne_none_iff_exists'.mp (hc.2 hov)
      rcases hm : MkdirAll fs (dirOf (join abs f.Path)) with ⟨fs1, _ | err⟩
      · cases hcr : Create fs1 (join abs f.Path) with
        | error e => simp [processFile, hov, hm, hcr]
        | ok fs2 =>
          cases hu : env.urlParse src with
          | error e => simp [processFile, hov, hm, hcr, hs, hu]
          | ok u =>
            cases hh : env.headersParse f.Contents.HTTPHeaders with
            | error e => simp [processFile, hov, hm, hcr, hs, hu, hh]
            | ok h =>
              rcases hf : env.Fetch u h with ⟨bytes, _ | e⟩ <;>
                simp [processFile, hov, hm, hcr, hs, hu, hh, hf]
      · simp [processFile, hov, hm]

/-- Over entries that dereference no nil pointer the loop runs to the end and visits every
entry once, in document order, whatever the filesystem and the collaborators do. -/
theorem extractLoop_total (env : Env) (abs : Path) :
    ∀ (files : List File) (fs : FS), (∀ f ∈ files, Complete f) →
      (extractLoop env abs files fs).exit = .code 0 ∧
        (extractLoop env abs files fs).visited.map Prod.fst = files := by
  intro files
  induction files with
  | nil => intro fs _; exact ⟨rfl, rfl⟩
  | cons f rest ih =>
    intro fs hc
    obtain ⟨t, ht⟩ := processFile_outcome_of_complete env abs fs f (hc f (List.mem_cons_self _ _))
    obtain ⟨h1, h2⟩ := ih (processFile env abs fs f).fs
      (fun g hg => hc g (List.mem_cons_of_mem _ hg))
    simp only [extractLoop, ht]
    exact ⟨h1, by simp [h2]⟩

/-! ## Facts about a whole run -/

/-- A run whose preconditions pass is the loop, after the events of the preparation and of
the Config Loader. -/
theorem run_ok (env : Env) (flagOutput arg : String) (fs fs1 : FS) (abs : Path)
    (t : List Event) (blob : Bytes) (cfg : Config) (rpt : Report)
    (habs : env.Abs flagOutput = .ok abs)
    (hprep : prepare fs abs = .ok (fs1, t))
    (hread : readBlob env arg = .ok blob)
    (hparse : env.Parse blob = (cfg, rpt, none))
    (hnf : rpt.IsFatal = false) :
    runIgnExtract env false flagOutput [arg] fs =
      ⟨(extractLoop env abs cfg.Storage.Files fs1).fs,
        (if rpt.Entries.length > 0 then
            (t ++ [.readConfig arg, .parse blob]) ++ [.stdout rpt.String []]
          else t ++ [.readConfig arg, .parse blob])
          ++ (extractLoop env abs cfg.Storage.Files fs1).trace,
        (extractLoop env abs cfg.Storage.Files fs1).exit,
        (extractLoop env abs cfg.Storage.Files fs1).visited⟩ := by
  simp [runIgnExtract, habs, hprep, loadAndExtract, hread, hparse, hnf]

/-- A successful preparation writes nothing on standard error. -/
theorem prepare_ok_no_stderr (fs fs1 : FS) (abs : Path) (t : List Event)
    (h : prepare fs abs = .ok (fs1, t)) : t.filter Event.isStderr = [] := by
  rcases prepare_ok_cases fs fs1 abs t h with ⟨-, -, rfl⟩ | ⟨e, -, -, -, rfl⟩ <;>
    simp [Event.isStderr]

theorem lateErrors_resolves (env : Env) (f : File) (b : Bytes) (h : Resolves env f b) :
    lateErrors env f = [] := by
  obtain ⟨src, u, hd, hs, hu, hh, hf⟩ := h
  unfold lateErrors
  split
  · rename_i src2 ho hs2
    rw [hs] at hs2
    cases hs2
    simp [hu, hh, hf]
  · rfl

theorem flatMap_lateErrors_nil (env : Env) (l : List File)
    (h : ∀ f ∈ l, ∃ b, Resolves env f b) : l.flatMap (lateErrors env) = [] := by
  induction l with
  | nil => rfl
  | cons f l ih =>
    obtain ⟨b, hb⟩ := h f (List.mem_cons_self _ _)
    rw [List.flatMap_cons, lateErrors_resolves env f b hb,
      ih (fun g hg => h g (List.mem_cons_of_mem _ hg))]
    rfl

/-- The loop after a successful preparation of a well-formed filesystem, over entries that
dereference no nil pointer and whose destinations (for overwrite true) lie strictly inside
the output root and do not conflict pairwise. -/
theorem loop_after_prepare (env : Env) (fs fs1 : FS) (abs : Path) (t : List Event)
    (files : List File) (hwf : fs.WF)
    (hprep : prepare fs abs = .ok (fs1, t))
    (hc : ∀ f ∈ files, Complete f)
    (hin : ∀ f ∈ files, f.Overwrite = some true → ∃ rel, rel ≠ [] ∧ dest abs f = abs ++ rel)
    (hpair : files.Pairwise (fun a b => a.Overwrite = some true → b.Overwrite = some true →
      NonConflict (dest abs a) (dest abs b))) :
    (extractLoop env abs files fs1).exit = .code 0 ∧
      (extractLoop env abs files fs1).visited.map Prod.fst = files ∧
      (extractLoop env abs files fs1).trace.filter Event.isStderr
        = files.flatMap (lateErrors env) ∧
      ∀ f ∈ files, f.Overwrite = some true → ∀ b, Resolves env f b →
        (extractLoop env abs files fs1).fs.lookup (dest abs f) = some (.file b) := by
  obtain ⟨hs, -, hempty⟩ := prepare_ok_empty fs fs1 abs t hwf hprep
  apply loop_inv env abs files fs1 hc _ hpair
  intro f hf hov
  obtain ⟨rel, hrel, hd⟩ := hin f hf hov
  rw [hd]
  exact free_of_empty fs1 abs hs hempty rel hrel

/-- C1. Overwrite gate. An entry with explicit-false overwrite touches nothing, emits the
skip notice and ends Skipped; but an entry whose overwrite flag is unset makes the closure
dereference a nil pointer: no skip notice is emitted and the loop does not continue with
the next entry, the run ends in a panic. -/
theorem C1_overwrite_gate_unset_panics (env : Env) (abs : Path) (fs : FS) (path : String)
    (contents : Resource) (rest : List File) :
    processFile env abs fs ⟨path, some false, contents⟩
        = ⟨fs, [.stdout ("skiping non-overwrite file: " ++ path) []], some .Skipped⟩ ∧
      processFile env abs fs ⟨path, none, contents⟩ = ⟨fs, [], none⟩ ∧
      extractLoop env abs (⟨path, none, contents⟩ :: rest) fs = ⟨fs, [], .panic, []⟩ :=
  ⟨rfl, rfl, rfl⟩

/-- C2. Per-entry totality fails on the code: with the entries `etc/hosts` (overwrite
true), `etc/motd` (overwrite unset) and `etc/issue` (overwrite true) the run aborts in a
panic at the second entry, only the first entry reaches a terminal state and the third is
never visited; and a single entry with overwrite true and an absent source panics after
its empty destination file has been created. -/
theorem C2_run_aborts_part_way :
    (runIgnExtract (demoEnv [entry "etc/hosts" (some true) (some "data:,hello"),
        entry "etc/motd" none (some "data:,hi"),
        entry "etc/issue" (some true) (some "data:,x")] noReport none)
      false "out" ["config.ign"] ⟨[]⟩).exit = .panic ∧
    (runIgnExtract (demoEnv [entry "etc/hosts" (some true) (some "data:,hello"),
        entry "etc/motd" none (some "data:,hi"),
        entry "etc/issue" (some true) (some "data:,x")] noReport none)
      false "out" ["config.ign"] ⟨[]⟩).visited
        = [(entry "etc/hosts" (some true) (some "data:,hello"), .Written)] ∧
    (runIgnExtract (demoEnv [entry "etc/hosts" (some true) (some "data:,hello"),
        entry "etc/motd" none (some "data:,hi"),
        entry "etc/issue" (some true) (some "data:,x")] noReport none)
      false "out" ["config.ign"] ⟨[]⟩).fs.lookup ["out", "etc", "issue"] = none ∧
    (runIgnExtract (demoEnv [entry "etc/hosts" (some true) none] noReport none)
      false "out" ["config.ign"] ⟨[]⟩).exit = .panic ∧
    (runIgnExtract (demoEnv [entry "etc/hosts" (some true) none] noReport none)
      false "out" ["config.ign"] ⟨[]⟩).fs.lookup ["out", "etc", "hosts"] = some (.file []) := by
  decide

/-- C3 (counterexample). Output root `/out`, an existing directory `/etc`, and the two
entries `../etc` (overwrite true, resolving source `data:,hi`) and `issue` (overwrite true,
source `:bad`, which does not parse).  The destinations `/etc` and `/out/issue` do not
conflict, and exactly one entry has an unparseable source; yet the other entry is not
written (its destination is a directory, it ends in CreateError) and standard error
carries two lines, not one. -/
theorem C3_counterexample_destination_outside_root :
    NonConflict (dest ["out"] (entry "../etc" (some true) (some "data:,hi")))
      (dest ["out"] (entry "issue" (some true) (some ":bad"))) ∧
    Resolves (demoEnv [entry "../etc" (some true) (some "data:,hi"),
        entry "issue" (some true) (some ":bad")] noReport none)
      (entry "../etc" (some true) (some "data:,hi")) [104, 105] ∧
    (demoEnv [entry "../etc" (some true) (some "data:,hi"),
        entry "issue" (some true) (some ":bad")] noReport none).urlParse ":bad"
      = .error "missing protocol scheme" ∧
    (runIgnExtract (demoEnv [entry "../etc" (some true) (some "data:,hi"),
        entry "issue" (some true) (some ":bad")] noReport none)
      false "out" ["config.ign"] ⟨[(["etc"], .dir)]⟩).fs.lookup
        (dest ["out"] (entry "../etc" (some true) (some "data:,hi"))) = some .dir ∧
    (runIgnExtract (demoEnv [entry "../etc" (some true) (some "data:,hi"),
        entry "issue" (some true) (some ":bad")] noReport none)
      false "out" ["config.ign"] ⟨[(["etc"], .dir)]⟩).visited.map Prod.snd
        = [.CreateError, .SourceError] ∧
    (runIgnExtract (demoEnv [entry "../etc" (some true) (some "data:,hi"),
        entry "issue" (some true) (some ":bad")] noReport none)
      false "out" ["config.ign"] ⟨[(["etc"], .dir)]⟩).trace.filter Event.isStderr
        = [.stderr "cannot create file content: /etc, open /etc: is a directory" [],
           .stderr "cannot read content: missing protocol scheme" []] ∧
    (runIgnExtract (demoEnv [entry "../etc" (some true) (some "data:,hi"),
        entry "issue" (some true) (some ":bad")] noReport none)
      false "out" ["config.ign"] ⟨[(["etc"], .dir)]⟩).exit = .code 0 := by
  refine ⟨by decide,
    ⟨"data:,hi", "data:,hi", [], by decide, by decide, by decide, by decide⟩,
    by decide, by decide, by decide, by decide, by decide⟩

/-- C3 (amended). Partial-failure isolation inside the output root. A run that starts on a
well-formed filesystem and passes its preconditions, over entries that all have overwrite
true and destinations strictly inside the output root, pairwise non-conflicting, of which
exactly one (`bad`) has a source that fails to parse while all others resolve: the exit
status is 0, every entry is visited in document order, each of the other destinations
holds exactly its fetched bytes, and standard error carries exactly one line, the one of
the failing entry. -/
theorem C3_partial_failure_isolation_inside_root (env : Env) (flagOutput arg : String) (fs fs1 : FS)
    (abs : Path) (t : List Event) (blob : Bytes) (cfg : Config) (rpt : Report)
    (pre post : List File) (bad : File) (src err : String)
    (hwf : fs.WF)
    (habs : env.Abs flagOutput = .ok abs)
    (hprep : prepare fs abs = .ok (fs1, t))
    (hread : readBlob env arg = .ok blob)
    (hparse : env.Parse blob = (cfg, rpt, none))
    (hnf : rpt.IsFatal = false)
    (hfiles : cfg.Storage.Files = pre ++ bad :: post)
    (hov : ∀ f ∈ cfg.Storage.Files, f.Overwrite = some true)
    (hin : ∀ f ∈ cfg.Storage.Files, ∃ rel, rel ≠ [] ∧ dest abs f = abs ++ rel)
    (hpair : cfg.Storage.Files.Pairwise (fun a b => NonConflict (dest abs a) (dest abs b)))
    (hbad : bad.Contents.Source = some src ∧ env.urlParse src = .error err)
    (hgood : ∀ f ∈ pre ++ post, ∃ b, Resolves env f b) :
    (runIgnExtract env false flagOutput [arg] fs).exit = .code 0 ∧
      (runIgnExtract env false flagOutput [arg] fs).visited.map Prod.fst
        = pre ++ bad :: post ∧
      (∀ f ∈ pre ++ post, ∀ b, Resolves env f b →
        (runIgnExtract env false flagOutput [arg] fs).fs.lookup (dest abs f)
          = some (.file b)) ∧
      (runIgnExtract env false flagOutput [arg] fs).trace.filter Event.isStderr
        = [.stderr ("cannot read content: " ++ err) []] := by
  have hmem : ∀ f, f ∈ pre ++ post → f ∈ cfg.Storage.Files := by
    intro f hf
    rw [hfiles]
    rcases List.mem_append.mp hf with h | h
    · exact List.mem_append_left _ h
    · exact List.mem_append_right _ (List.mem_cons_of_mem _ h)
  have hbmem : bad ∈ cfg.Storage.Files := by
    rw [hfiles]; simp
  have hc : ∀ f ∈ cfg.Storage.Files, Complete f := by
    intro f hf
    refine ⟨by rw [hov f hf]; simp, fun _ => ?_⟩
    rw [hfiles] at hf
    rcases List.mem_append.mp hf with h | h
    · obtain ⟨b, s2, _, _, hs, _⟩ := hgood f (List.mem_append_left _ h)
      rw [hs]; simp
    · rcases List.mem_cons.mp h with rfl | h2
      · rw [hbad.1]; simp
      · obtain ⟨b, s2, _, _, hs, _⟩ := hgood f (List.mem_append_right _ h2)
        rw [hs]; simp
  obtain ⟨h1, h2, h3, h4⟩ := loop_after_prepare env fs fs1 abs t cfg.Storage.Files hwf hprep hc
    (fun f hf _ => hin f hf) (hpair.imp (fun h _ _ => h))
  have hlate : lateErrors env bad = [.stderr ("cannot read content: " ++ err) []] := by
    unfold lateErrors
    simp [hov bad hbmem, hbad.1, hbad.2]
  have hflat : cfg.Storage.Files.flatMap (lateErrors env)
      = [.stderr ("cannot read content: " ++ err) []] := by
    rw [hfiles, List.flatMap_append, List.flatMap_cons, hlate,
      flatMap_lateErrors_nil env pre (fun f hf => hgood f (List.mem_append_left _ hf)),
      flatMap_lateErrors_nil env post (fun f hf => hgood f (List.mem_append_right _ hf))]
    rfl
  have ht := prepare_ok_no_stderr fs fs1 abs t hprep
  rw [run_ok env flagOutput arg fs fs1 abs t blob cfg rpt habs hprep hread hparse hnf]
  refine ⟨h1, by rw [h2, hfiles], ?_, ?_⟩
  · intro f hf b hb
    exact h4 f (hmem f hf) (hov f (hmem f hf)) b hb
  · simp only [List.filter_append, h3, hflat]
    split <;> simp [List.filter_append, ht, Event.isStderr]

/-- Witness of C3 (amended): an empty filesystem, the entries `etc/hosts` and `etc/motd` with
resolving sources around the entry `etc/issue` whose source `:bad` does not parse. -/
theorem C3_partial_failure_isolation_inside_root_witness :
    (runIgnExtract (demoEnv [entry "etc/hosts" (some true) (some "data:,hello"),
          entry "etc/issue" (some true) (some ":bad"),
          entry "etc/motd" (some true) (some "data:,hi")] noReport none)
        false "out" ["config.ign"] ⟨[]⟩).exit = .code 0 ∧
      (runIgnExtract (demoEnv [entry "etc/hosts" (some true) (some "data:,hello"),
          entry "etc/issue" (some true) (some ":bad"),
          entry "etc/motd" (some true) (some "data:,hi")] noReport none)
        false "out" ["config.ign"] ⟨[]⟩).trace.filter Event.isStderr
        = [.stderr ("cannot read content: " ++ "missing protocol scheme") []] := by
  have h := C3_partial_failure_isolation_inside_root
    (demoEnv [entry "etc/hosts" (some true) (some "data:,hello"),
      entry "etc/issue" (some true) (some ":bad"),
      entry "etc/motd" (some true) (some "data:,hi")] noReport none)
    "out" "config.ign" ⟨[]⟩ ⟨[(["out"], .dir)]⟩ ["out"]
    [.readDir ["out"], .stdout "output dir not found, creating dir at: /out" [], .mkdir ["out"]]
    [] ⟨⟨[entry "etc/hosts" (some true) (some "data:,hello"),
      entry "etc/issue" (some true) (some ":bad"),
      entry "etc/motd" (some true) (some "data:,hi")]⟩⟩ noReport
    [entry "etc/hosts" (some true) (some "data:,hello")]
    [entry "etc/motd" (some true) (some "data:,hi")]
    (entry "etc/issue" (some true) (some ":bad")) ":bad" "missing protocol scheme"
    (by decide) (by decide) (by decide) (by decide) rfl rfl rfl (by decide)
    (by
      intro f hf
      simp only [List.mem_cons, List.mem_singleton, List.not_mem_nil, or_false] at hf
      rcases hf with rfl | rfl | rfl
      · exact ⟨["etc", "hosts"], by decide, by decide⟩
      · exact ⟨["etc", "issue"], by decide, by decide⟩
      · exact ⟨["etc", "motd"], by decide, by decide⟩)
    (by decide) (by decide)
    (by
      intro f hf
      simp only [List.cons_append, List.nil_append, List.mem_cons, List.mem_singleton,
        List.not_mem_nil, or_false] at hf
      rcases hf with rfl | rfl
      · exact ⟨[104, 101, 108, 108, 111], "data:,hello", "data:,hello", [],
          by decide, by decide, by decide, by decide⟩
      · exact ⟨[104, 105], "data:,hi", "data:,hi", [],
          by decide, by decide, by decide, by decide⟩)
  exact ⟨h.1, h.2.2.2⟩

/-- C4 (counterexample). Two entries name the destination `a`, with the resolving sources
`data:,one` and `data:,two`: after the run the file holds the bytes of the second, not
those the fetcher produces for the first.  And with the entries `a` and `a/b`, the second
ends in DirError and no file `a/b` exists after the run. -/
theorem C4_counterexample_shared_destination :
    Resolves (demoEnv [entry "a" (some true) (some "data:,one"),
        entry "a" (some true) (some "data:,two")] noReport none)
      (entry "a" (some true) (some "data:,one")) [111, 110, 101] ∧
    (runIgnExtract (demoEnv [entry "a" (some true) (some "data:,one"),
        entry "a" (some true) (some "data:,two")] noReport none)
      false "out" ["config.ign"] ⟨[]⟩).fs.lookup
        (dest ["out"] (entry "a" (some true) (some "data:,one")))
          = some (.file [116, 119, 111]) ∧
    (runIgnExtract (demoEnv [entry "a" (some true) (some "data:,one"),
        entry "a" (some true) (some "data:,two")] noReport none)
      false "out" ["config.ign"] ⟨[]⟩).exit = .code 0 ∧
    Resolves (demoEnv [entry "a" (some true) (some "data:,one"),
        entry "a/b" (some true) (some "data:,two")] noReport none)
      (entry "a/b" (some true) (some "data:,two")) [116, 119, 111] ∧
    (runIgnExtract (demoEnv [entry "a" (some true) (some "data:,one"),
        entry "a/b" (some true) (some "data:,two")] noReport none)
      false "out" ["config.ign"] ⟨[]⟩).fs.lookup
        (dest ["out"] (entry "a/b" (some true) (some "data:,two"))) = none ∧
    (runIgnExtract (demoEnv [entry "a" (some true) (some "data:,one"),
        entry "a/b" (some true) (some "data:,two")] noReport none)
      false "out" ["config.ign"] ⟨[]⟩).visited.map Prod.snd = [.Written, .DirError] := by
  refine ⟨⟨"data:,one", "data:,one", [], by decide, by decide, by decide, by decide⟩,
    by decide, by decide,
    ⟨"data:,two", "data:,two", [], by decide, by decide, by decide, by decide⟩,
    by decide, by decide⟩

/-- C4 (amended). A run that starts on a well-formed filesystem and passes its
preconditions, over entries none of which has the overwrite flag unset or, with overwrite
true, the source absent, and whose destinations for overwrite true lie strictly inside the
output root and do not conflict pairwise: after the run the destination of every entry
with overwrite true and a resolving source holds exactly the bytes the fetcher produces
for its source and headers. -/
theorem C4_written_content_without_conflicts (env : Env) (flagOutput arg : String)
    (fs fs1 : FS) (abs : Path) (t : List Event) (blob : Bytes) (cfg : Config) (rpt : Report)
    (hwf : fs.WF)
    (habs : env.Abs flagOutput = .ok abs)
    (hprep : prepare fs abs = .ok (fs1, t))
    (hread : readBlob env arg = .ok blob)
    (hparse : env.Parse blob = (cfg, rpt, none))
    (hnf : rpt.IsFatal = false)
    (hc : ∀ f ∈ cfg.Storage.Files, Complete f)
    (hin : ∀ f ∈ cfg.Storage.Files, f.Overwrite = some true →
      ∃ rel, rel ≠ [] ∧ dest abs f = abs ++ rel)
    (hpair : cfg.Storage.Files.Pairwise (fun a b => a.Overwrite = some true →
      b.Overwrite = some true → NonConflict (dest abs a) (dest abs b))) :
    ∀ f ∈ cfg.Storage.Files, f.Overwrite = some true → ∀ b, Resolves env f b →
      (runIgnExtract env false flagOutput [arg] fs).fs.lookup (dest abs f)
        = some (.file b) := by
  obtain ⟨-, -, -, h4⟩ :=
    loop_after_prepare env fs fs1 abs t cfg.Storage.Files hwf hprep hc hin hpair
  rw [run_ok env flagOutput arg fs fs1 abs t blob cfg rpt habs hprep hread hparse hnf]
  exact h4

/-- Witness of C4 (amended): an empty output directory `/out`, a skipped entry and two
entries `etc/hosts` and `etc/motd` with resolving sources. -/
theorem C4_written_content_without_conflicts_witness :
    (runIgnExtract (demoEnv [entry "etc/hosts" (some true) (some "data:,hello"),
          entry "etc/fstab" (some false) none,
          entry "etc/motd" (some true) (some "data:,hi")] noReport none)
        false "out" ["config.ign"] ⟨[(["out"], .dir)]⟩).fs.lookup
          (dest ["out"] (entry "etc/motd" (some true) (some "data:,hi")))
      = some (.file [104, 105]) :=
  C4_written_content_without_conflicts
    (demoEnv [entry "etc/hosts" (some true) (some "data:,hello"),
      entry "etc/fstab" (some false) none,
      entry "etc/motd" (some true) (some "data:,hi")] noReport none)
    "out" "config.ign" ⟨[(["out"], .dir)]⟩ ⟨[(["out"], .dir)]⟩ ["out"]
    [.readDir ["out"]]
    [] ⟨⟨[entry "etc/hosts" (some true) (some "data:,hello"),
      entry "etc/fstab" (some false) none,
      entry "etc/motd" (some true) (some "data:,hi")]⟩⟩ noReport
    (by decide) (by decide) (by decide) (by decide) rfl rfl
    (by
      intro f hf
      simp only [List.mem_cons, List.mem_singleton, List.not_mem_nil, or_false] at hf
      rcases hf with rfl | rfl | rfl <;> exact ⟨by decide, by decide⟩)
    (by
      intro f hf hov
      simp only [List.mem_cons, List.mem_singleton, List.not_mem_nil, or_false] at hf
      rcases hf with rfl | rfl | rfl
      · exact ⟨["etc", "hosts"], by decide, by decide⟩
      · exact absurd hov (by decide)
      · exact ⟨["etc", "motd"], by decide, by decide⟩)
    (by decide)
    (entry "etc/motd" (some true) (some "data:,hi")) (by decide) (by decide) [104, 105]
    ⟨"data:,hi", "data:,hi", [], by decide, by decide, by decide, by decide⟩

/-- C5. Non-empty output refusal: without `-version` and with exactly one argument, when
the output directory can be listed and has at least one entry, the run is exactly one
listing of the directory followed by the not-empty error line and exit status 1; the
config input is neither read nor parsed and the filesystem is the initial one. -/
theorem C5_nonempty_output_refused (env : Env) (flagOutput arg : String) (fs : FS)
    (abs : Path) (names : List String)
    (habs : env.Abs flagOutput = .ok abs)
    (hdir : ReadDir fs abs = .ok names) (hne : names ≠ []) :
    runIgnExtract env false flagOutput [arg] fs
        = ⟨fs, [.readDir abs, .stderr "output dir not empty: %s" [pathStr abs]], .code 1, []⟩ ∧
      (∀ a, Event.readConfig a ∉ (runIgnExtract env false flagOutput [arg] fs).trace) ∧
      (∀ b, Event.parse b ∉ (runIgnExtract env false flagOutput [arg] fs).trace) := by
  have hrun : runIgnExtract env false flagOutput [arg] fs
      = ⟨fs, [.readDir abs, .stderr "output dir not empty: %s" [pathStr abs]], .code 1, []⟩ := by
    simp [runIgnExtract, habs, prepare, hdir, hne, die]
  rw [hrun]
  simp

/-- Witness of C5: the output directory `/out` holds a file `/out/stale`. -/
theorem C5_nonempty_output_refused_witness :
    runIgnExtract (demoEnv [] noReport none) false "out" ["config.ign"]
        ⟨[(["out", "stale"], .file [1]), (["out"], .dir)]⟩
      = ⟨⟨[(["out", "stale"], .file [1]), (["out"], .dir)]⟩,
          [.readDir ["out"], .stderr "output dir not empty: %s" ["/out"]], .code 1, []⟩ :=
  (C5_nonempty_output_refused (demoEnv [] noReport none) "out" "config.ign"
    ⟨[(["out", "stale"], .file [1]), (["out"], .dir)]⟩ ["out"] ["stale"]
    (by decide) (by decide) (by decide)).1

/-- C6. Fatal diagnostics: when the run reaches the Config Loader (preconditions and the
read of the config input pass, on a well-formed filesystem) and the report is fatal, with
or without an error value, the run ends with exit status 1 right after the Loader, having
printed the report when it has entries; no entry is visited, no directory tree or file is
created, the filesystem is the one the preparation left, the output directory lists no
entry, and nothing but the output directory itself differs from the initial filesystem. -/
theorem C6_fatal_report_stops_run (env : Env) (flagOutput arg : String) (fs fs1 : FS)
    (abs : Path) (t : List Event) (blob : Bytes) (cfg : Config) (rpt : Report)
    (err : Option String)
    (hwf : fs.WF)
    (habs : env.Abs flagOutput = .ok abs)
    (hprep : prepare fs abs = .ok (fs1, t))
    (hread : readBlob env arg = .ok blob)
    (hparse : env.Parse blob = (cfg, rpt, err))
    (hfatal : rpt.IsFatal = true) :
    (runIgnExtract env false flagOutput [arg] fs).exit = .code 1 ∧
      (runIgnExtract env false flagOutput [arg] fs).visited = [] ∧
      (runIgnExtract env false flagOutput [arg] fs).trace
        = t ++ [.readConfig arg, .parse blob]
            ++ (if rpt.Entries.length > 0 then [.stdout rpt.String []] else []) ∧
      (∀ p, Event.mkdirAll p ∉ (runIgnExtract env false flagOutput [arg] fs).trace ∧
        Event.create p ∉ (runIgnExtract env false flagOutput [arg] fs).trace) ∧
      (∀ u h p, Event.fetch u h p ∉ (runIgnExtract env false flagOutput [arg] fs).trace) ∧
      (runIgnExtract env false flagOutput [arg] fs).fs = fs1 ∧
      ReadDir (runIgnExtract env false flagOutput [arg] fs).fs abs = .ok [] ∧
      ∀ p, p ≠ abs → (runIgnExtract env false flagOutput [arg] fs).fs.lookup p = fs.lookup p := by
  have hrun : runIgnExtract env false flagOutput [arg] fs
      = ⟨fs1, t ++ [.readConfig arg, .parse blob]
          ++ (if rpt.Entries.length > 0 then [.stdout rpt.String []] else []), .code 1, []⟩ := by
    by_cases hlen : rpt.Entries.length > 0 <;>
      simp [runIgnExtract, habs, hprep, loadAndExtract, hread, hparse, hfatal, hlen]
  obtain ⟨-, hrd, -⟩ := prepare_ok_empty fs fs1 abs t hwf hprep
  rw [hrun]
  refine ⟨rfl, rfl, rfl, ?_, ?_, rfl, hrd, ?_⟩
  · intro p
    rcases prepare_ok_cases fs fs1 abs t hprep with ⟨-, -, rfl⟩ | ⟨e, -, -, -, rfl⟩ <;>
      constructor <;> split <;> simp
  · intro u h p
    rcases prepare_ok_cases fs fs1 abs t hprep with ⟨-, -, rfl⟩ | ⟨e, -, -, -, rfl⟩ <;>
      split <;> simp
  · intro p hp
    rcases prepare_ok_cases fs fs1 abs t hprep with ⟨-, rfl, -⟩ | ⟨e, -, -, hmk, -⟩
    · rfl
    · obtain ⟨hne, -, -, rfl⟩ := (Mkdir_ok_iff _ _ _).mp hmk
      simp only [lookup_set _ _ _ _ hne, hp, if_false]

/-- Witness of C6: the output directory `/out` is absent and gets created, the report has
one entry and is fatal, and an error value accompanies it. -/
theorem C6_fatal_report_stops_run_witness :
    (runIgnExtract (demoEnv [entry "etc/hosts" (some true) (some "data:,hello")]
          ⟨["error: invalid version"], true, "error: invalid version\n"⟩ (some "invalid config"))
        false "out" ["config.ign"] ⟨[]⟩).exit = .code 1 ∧
      ReadDir (runIgnExtract (demoEnv [entry "etc/hosts" (some true) (some "data:,hello")]
          ⟨["error: invalid version"], true, "error: invalid version\n"⟩ (some "invalid config"))
        false "out" ["config.ign"] ⟨[]⟩).fs ["out"] = .ok [] := by
  have h := C6_fatal_report_stops_run
    (demoEnv [entry "etc/hosts" (some true) (some "data:,hello")]
      ⟨["error: invalid version"], true, "error: invalid version\n"⟩ (some "invalid config"))
    "out" "config.ign" ⟨[]⟩ ⟨[(["out"], .dir)]⟩ ["out"]
    [.readDir ["out"], .stdout "output dir not found, creating dir at: /out" [], .mkdir ["out"]]
    [] ⟨⟨[entry "etc/hosts" (some true) (some "data:,hello")]⟩⟩
    ⟨["error: invalid version"], true, "error: invalid version\n"⟩ (some "invalid config")
    (by decide) (by decide) (by decide) (by decide) rfl rfl
  exact ⟨h.1, h.2.2.2.2.2.2.1⟩

/-- C8 (counterexample). With output root `/out`, the entry path `../x` is joined to
`/x`, which is not inside `/out`, and processing the entry creates the file `/x` there. -/
theorem C8_counterexample_dotdot_escapes :
    join ["out"] "../x" = ["x"] ∧ ¬ (["out"] <+: join ["out"] "../x") ∧
      (⟨[(["out"], .dir)]⟩ : FS).lookup ["x"] = none ∧
      (processFile (demoEnv [] noReport none) ["out"] ⟨[(["out"], .dir)]⟩
        (entry "../x" (some true) (some "data:,hi"))).fs.lookup ["x"]
          = some (.file [104, 105]) := by
  decide

/-- C8 (amended). For an entry whose path has no `..` segment and an output root that is
an existing directory, the destination has the output root as a prefix, and every path at
which processing the entry changes the filesystem lies strictly inside the output root. -/
theorem C8_containment_without_dotdot (env : Env) (abs : Path) (fs : FS) (f : File)
    (hdots : ".." ∉ splitPath f.Path) (hroot : fs.stat abs = .ok .dir) :
    abs <+: dest abs f ∧
      ∀ q, (processFile env abs fs f).fs.lookup q ≠ fs.lookup q → abs <+: q ∧ q ≠ abs := by
  have hpre : abs <+: dest abs f :=
    foldl_cleanStep_keeps_root abs (splitPath f.Path) hdots abs List.prefix_rfl
  refine ⟨hpre, ?_⟩
  intro q hch
  rw [stat_ok_iff] at hroot
  have hdirs : ∀ r, r <+: abs → fs.lookup r = some .dir := by
    intro r hr
    by_cases h : r = abs
    · rw [h]; exact hroot.1
    · exact hroot.2 r hr h
  have hnd : fs.lookup q ≠ some .dir := by
    intro h
    exact hch (by rw [processFile_dir_preserved env abs fs f q h, h])
  have hqabs : ¬ q <+: abs := fun h => hnd (hdirs q h)
  have hqd : q <+: dest abs f := by
    by_cases h : q = dest abs f
    · rw [h]
    · rcases processFile_lookup env abs fs f q h with h1 | ⟨-, h2, -⟩
      · exact absurd h1 hch
      · exact h2.trans (List.dropLast_prefix _)
  constructor
  · rcases List.prefix_or_prefix_of_prefix hqd hpre with h | h
    · exact absurd h hqabs
    · exact h
  · intro h
    apply hqabs
    rw [h]

/-- Witness of C8 (amended): the entry `etc/hosts` under the output root `/out`. -/
theorem C8_containment_without_dotdot_witness :
    ["out"] <+: dest ["out"] (entry "etc/hosts" (some true) (some "data:,hello")) ∧
      ∀ q, (processFile (demoEnv [] noReport none) ["out"] ⟨[(["out"], .dir)]⟩
          (entry "etc/hosts" (some true) (some "data:,hello"))).fs.lookup q
            ≠ (⟨[(["out"], .dir)]⟩ : FS).lookup q → ["out"] <+: q ∧ q ≠ ["out"] :=
  C8_containment_without_dotdot (demoEnv [] noReport none) ["out"] ⟨[(["out"], .dir)]⟩
    (entry "etc/hosts" (some true) (some "data:,hello")) (by decide) (by decide)

/-- C10. Residue on late failure: when the ancestor directories and the destination file
of an entry with overwrite true can be created and its source or its headers fail to
parse, the entry ends in SourceError or HeaderError and leaves the destination as a
zero-length file whose ancestors all are directories, whatever was at that path before. -/
theorem C10_residue_on_late_failure (env : Env) (abs : Path) (fs fs1 fs2 : FS) (f : File)
    (src : String)
    (hov : f.Overwrite = some true)
    (hmk : MkdirAll fs (dirOf (dest abs f)) = (fs1, none))
    (hcr : Create fs1 (dest abs f) = .ok fs2)
    (hsrc : f.Contents.Source = some src)
    (hfail : (∃ e, env.urlParse src = .error e) ∨
      (∃ e, env.headersParse f.Contents.HTTPHeaders = .error e)) :
    ((processFile env abs fs f).outcome = some .SourceError ∨
        (processFile env abs fs f).outcome = some .HeaderError) ∧
      (processFile env abs fs f).fs.lookup (dest abs f) = some (.file []) ∧
      (processFile env abs fs f).fs.stat (dest abs f) = .ok (.file []) ∧
      (processFile env abs fs f).fs.stat (dirOf (dest abs f)) = .ok .dir := by
  obtain ⟨hne, hpar, -, rfl⟩ := (Create_ok_iff _ _ _).mp hcr
  have hlk : (fs1.set (dest abs f) (.file [])).lookup (dest abs f) = some (.file []) := by
    rw [lookup_set _ _ _ _ hne, if_pos rfl]
  have hpar2 : (fs1.set (dest abs f) (.file [])).stat (dirOf (dest abs f)) = .ok .dir := by
    have hnp : ¬ dest abs f <+: dirOf (dest abs f) := not_prefix_dropLast _ hne
    rw [stat_set_of_not_below _ _ _ _ hne hnp]
    exact hpar
  have hst : (fs1.set (dest abs f) (.file [])).stat (dest abs f) = .ok (.file []) := by
    rw [stat_ok_iff]
    refine ⟨hlk, ?_⟩
    intro q hq hqne
    have hq2 := prefix_dirOf hq hqne
    rw [stat_ok_iff] at hpar2
    by_cases h : q = dirOf (dest abs f)
    · rw [h]; exact hpar2.1
    · exact hpar2.2 q hq2 h
  have hfs : (processFile env abs fs f).fs = fs1.set (dest abs f) (.file []) ∧
      ((processFile env abs fs f).outcome = some .SourceError ∨
        (processFile env abs fs f).outcome = some .HeaderError) := by
    unfold processFile
    simp only [← dest.eq_1 abs f, hov, hmk, hcr, hsrc]
    cases hu : env.urlParse src with
    | error e => simp
    | ok u =>
      rcases hfail with ⟨e, he⟩ | ⟨e, he⟩
      · rw [hu] at he; exact absurd he (by simp)
      · simp [he]
  rw [hfs.1]
  exact ⟨hfs.2, hlk, hst, hpar2⟩

/-- Witness of C10: under `/out`, the entry `etc/hosts` with the unparseable source `:bad`,
on a filesystem in which `/out/etc/hosts` already holds three bytes. -/
theorem C10_residue_on_late_failure_witness :
    (processFile (demoEnv [] noReport none) ["out"]
        ⟨[(["out", "etc", "hosts"], .file [1, 2, 3]), (["out", "etc"], .dir), (["out"], .dir)]⟩
        (entry "etc/hosts" (some true) (some ":bad"))).fs.lookup
          (dest ["out"] (entry "etc/hosts" (some true) (some ":bad"))) = some (.file []) :=
  (C10_residue_on_late_failure (demoEnv [] noReport none) ["out"]
    ⟨[(["out", "etc", "hosts"], .file [1, 2, 3]), (["out", "etc"], .dir), (["out"], .dir)]⟩
    ⟨[(["out", "etc", "hosts"], .file [1, 2, 3]), (["out", "etc"], .dir), (["out"], .dir)]⟩
    ⟨[(["out", "etc", "hosts"], .file []), (["out", "etc"], .dir), (["out"], .dir)]⟩
    (entry "etc/hosts" (some true) (some ":bad")) ":bad"
    (by decide) (by decide) (by decide) (by decide)
    (Or.inl ⟨"missing protocol scheme", by decide⟩)).2.1

end Extract
